import Mathlib

/-!
Verification of the workflow-composition core of celery (src/celery/app/builtins.py):
groups, chains, chords and the chord-completion-detection task (celery.chord_unlock).

The embedding is shallow: task/ result identifiers (uuids) are natural numbers drawn
from an explicit fresh counter, option dictionaries become explicit `Option`-valued
fields, and the effects of an operation (which signatures were submitted, which
backend hooks were called) are returned as explicit records.  Collaborator code that
lives outside src/ (celery.result joins, the retry machinery) is modelled from the
spec and marked as such in its doc comment.
-/

namespace CeleryB

/-- Task / result identifiers are opaque uuid strings in the source; we model them as
naturals drawn from an explicit counter, so freshness is literal. -/
abbrev TaskId := Nat

/-! ### Chord completion detector (celery.chord_unlock) -/

/-- State of one header member's result, as visible through the result backend:
still pending, succeeded with a value, or failed with an error. -/
inductive ChildState where
  | pending
  | success (v : Nat)
  | failure (e : Nat)
deriving DecidableEq, Repr

/-- A child result is ready when it reached a terminal state (AsyncResult.ready). -/
def ChildState.ready : ChildState → Bool
  | .pending => false
  | .success _ => true
  | .failure _ => true

/-- Entry of a joined value list: an ordinary value or the failure marker standing
in a failed member's position (join with propagate=False). -/
inductive JoinVal where
  | val (v : Nat)
  | failMarker (e : Nat)
deriving DecidableEq, Repr

/-- The joined representation of one ready child.  `pending` never reaches this
function in the places it is used: join is only invoked after `ready()` is true. -/
def ChildState.joinVal : ChildState → JoinVal
  | .pending => .failMarker 0
  | .success v => .val v
  | .failure e => .failMarker e

/-- Modelled from the spec: `GroupResult.join` / `join_native` (celery.result is not
under src/).  Joining collects the children's values in order; with propagate=true
any child in FAILURE state aborts the join with that child's error, with
propagate=false the failure marker is returned in that child's position instead. -/
def joinResults (propagate : Bool) : List ChildState → Except Nat (List JoinVal)
  | [] => .ok []
  | c :: cs =>
    match c, propagate with
    | .failure e, true => .error e
    | _, _ => (joinResults propagate cs).map (fun vs => c.joinVal :: vs)

/-- Which join implementation unlock_chord selected:
`j = result.join_native if result.supports_native_join else result.join`. -/
inductive JoinMethod where
  | native
  | generic
deriving DecidableEq, Repr

/-- The source picks the backend-native bulk join exactly when the group result
supports it, and the generic per-child join otherwise. -/
def joinMethodOf (supportsNativeJoin : Bool) : JoinMethod :=
  if supportsNativeJoin then .native else .generic

/-- Observable outcome of one invocation of unlock_chord: the body callback was
submitted with a joined value list, the join raised (propagate with a failed
member), or the task rescheduled itself with the given countdown. -/
inductive UnlockAction where
  | submitted (callback : TaskId) (values : List JoinVal) (method : JoinMethod)
  | raised (e : Nat) (method : JoinMethod)
  | retried (countdown : Nat)
deriving DecidableEq, Repr

def UnlockAction.isSubmitted : UnlockAction → Bool
  | .submitted _ _ _ => true
  | _ => false

/-- Embedding of `unlock_chord` (src/celery/app/builtins.py, task
celery.chord_unlock).  The group result is reconstructed from the expected child
results; if `result.ready()` (all children ready) the selected join is evaluated
with `propagate` and the callback is submitted with the joined list (a raising
join aborts before the submission); otherwise the task retries itself with
countdown=interval. -/
def unlock_chord (supportsNativeJoin : Bool) (callback : TaskId) (interval : Nat)
    (propagate : Bool) (children : List ChildState) : UnlockAction :=
  let m := joinMethodOf supportsNativeJoin
  if children.all ChildState.ready then
    match joinResults propagate children with
    | .ok vs => .submitted callback vs m
    | .error e => .raised e m
  else
    .retried interval

/-- Terminal outcome of the whole detector run: the unlock task fired a non-retry
action at a given poll index, or exhausted its retry budget after the given
number of attempts. -/
inductive DetectorOutcome where
  | fired (a : UnlockAction) (poll : Nat)
  | timeout (attempts : Nat)
deriving DecidableEq, Repr

/-- Modelled from the spec: the retry scheduling loop around unlock_chord (the
retry machinery is not under src/).  `sched n` is the children's backend state at
poll `n`; polls are numbered from 0.  Each poll executes `unlock_chord` once; a
`retried` action consumes one unit of the bounded retry budget and reschedules
the next poll, any other action ends the run (the task is DONE and does not
reschedule again).  When the budget is exhausted the run ends in `timeout`,
carrying the total number of attempts made — the spec's ChordTimeout.  The
returned list is the trace of the actions of every poll, in order. -/
def detectorRun (sched : Nat → List ChildState) (supportsNativeJoin : Bool)
    (callback : TaskId) (interval : Nat) (propagate : Bool) :
    Nat → Nat → List UnlockAction × DetectorOutcome
  | n, 0 => ([], .timeout n)
  | n, fuel + 1 =>
    match unlock_chord supportsNativeJoin callback interval propagate (sched n) with
    | .retried c =>
      let rest := detectorRun sched supportsNativeJoin callback interval propagate (n + 1) fuel
      (.retried c :: rest.1, rest.2)
    | .submitted cb vs m => ([.submitted cb vs m], .fired (.submitted cb vs m) n)
    | .raised e m => ([.raised e m], .fired (.raised e m) n)

/-! ### Signatures, group preparation and chord orchestration

Python signatures are mutable objects: `opts['group_id'] = ...` writes into the
caller's object.  We model object identity with an explicit `oid` field: an
operation that mutates a signature in place returns a signature with the same
`oid`, while `clone` allocates a fresh `oid`.  One fresh supply (the `cnt`
counter threaded through every operation) provides both uuids and object
identities. -/

/-- A single task signature as used by the Group and Chord orchestration tasks:
argument list plus the options this layer reads and writes (`task_id`,
`group_id`, and the chord-body reference `opts['chord']`, modelled by the body
signature's object identity). -/
structure BSig where
  oid : Nat
  args : List Nat
  task_id : Option TaskId
  group_id : Option TaskId
  chordRef : Option Nat
deriving DecidableEq, Repr

/-- In-place write of `opts['group_id']` (same object, same `oid`). -/
def BSig.withGroupId (g : TaskId) (s : BSig) : BSig :=
  ⟨s.oid, s.args, s.task_id, some g, s.chordRef⟩

/-- In-place write of `opts['task_id']` (same object, same `oid`). -/
def BSig.withTaskId (t : TaskId) (s : BSig) : BSig :=
  ⟨s.oid, s.args, some t, s.group_id, s.chordRef⟩

/-- In-place write of `opts['chord']` (same object, same `oid`). -/
def BSig.withChordRef (c : Nat) (s : BSig) : BSig :=
  ⟨s.oid, s.args, s.task_id, s.group_id, some c⟩

/-- canvas `Signature.clone(extra)`: a new object (fresh `oid`) with `extra`
prepended to the positional args and the options copied over. -/
def BSig.clone (extra : List Nat) (s : BSig) (cnt : Nat) : BSig × Nat :=
  (⟨cnt, extra ++ s.args, s.task_id, s.group_id, s.chordRef⟩, cnt + 1)

/-- An ordered group result handle: the group id plus the children's task ids in
submission order (each child id names the member's AsyncResult). -/
structure GroupHandle where
  gid : TaskId
  childIds : List TaskId
deriving DecidableEq, Repr

/-- The member loop of `Group.prepare`: for every member signature, write
`group_id` into its options, reuse its `task_id` when present else assign a
fresh uuid, and record the AsyncResult id — all on the original object. -/
def Group.prepareMembers (gid : TaskId) : List BSig → Nat → List BSig × List TaskId × Nat
  | [], cnt => ([], [], cnt)
  | s :: rest, cnt =>
    let (tid, s2, cnt1) :=
      match s.task_id with
      | some t => (t, s.withGroupId gid, cnt)
      | none => (cnt, (s.withGroupId gid).withTaskId cnt, cnt + 1)
    let (ts, ids, cnt2) := Group.prepareMembers gid rest cnt1
    (s2 :: ts, tid :: ids, cnt2)

/-- The tuple `Group.prepare` returns: the prepared member signatures, the group
result handle built eagerly from their ids, the group id and the partial args. -/
structure GroupPrepared where
  tasks : List BSig
  result : GroupHandle
  gid : TaskId
  args : List Nat
deriving DecidableEq, Repr

/-- Embedding of `Group.prepare` (src/celery/app/builtins.py).  The group id is
`options.setdefault('task_id', uuid())`: the caller-supplied task id when
present, a fresh uuid otherwise (the uuid is drawn either way, as Python
evaluates the `setdefault` default eagerly).  Each member is prepared in place
and the GroupResult handle is built from the collected ids, in member order.
With an empty member list the source's `zip(*[])` unpacking raises, so the
result is `none`. -/
def Group.prepare (optTaskId : Option TaskId) (tasks : List BSig) (args : List Nat)
    (cnt : Nat) : Option (GroupPrepared × Nat) :=
  let cnt0 := cnt + 1
  let gid := match optTaskId with
    | some t => t
    | none => cnt
  match tasks with
  | [] => none
  | _ =>
    let (ts, ids, cnt1) := Group.prepareMembers gid tasks cnt0
    some (⟨ts, ⟨gid, ids⟩, gid, args⟩, cnt1)

/-- What `Group.apply_async` did: the handle it returned, the single payload it
submitted to the queue (the group task wrapping the prepared members), and the
group id. -/
structure GroupAsyncOut where
  result : GroupHandle
  submittedPayload : GroupPrepared
  gid : TaskId
deriving DecidableEq, Repr

/-- Embedding of `Group.apply_async` (non-eager path): prepare first, then submit
the group task once with the prepared payload, and return the handle built by
`prepare` — the handle therefore exists before (and independently of) the
submission. -/
def Group.apply_async (optTaskId : Option TaskId) (tasks : List BSig)
    (extraArgs : List Nat) (cnt : Nat) : Option (GroupAsyncOut × Nat) :=
  match Group.prepare optTaskId tasks extraArgs cnt with
  | none => none
  | some (p, cnt1) => some (⟨p.result, p, p.gid⟩, cnt1)

/-- The arguments of the backend's `on_chord_apply` registration call. -/
structure ChordRegistration where
  gid : TaskId
  body : BSig
  interval : Nat
  max_retries : Option Nat
  propagate : Bool
  expected : List TaskId
deriving DecidableEq, Repr

/-- The member loop of `Chord.run`: reuse the member's `task_id` when present
else assign a fresh uuid, then write `opts['chord'] = body` and
`opts['group_id'] = group_id` on the original object, collecting the expected
AsyncResult ids. -/
def Chord.tagMembers (bodyRef : Nat) (gid : TaskId) :
    List BSig → Nat → List BSig × List TaskId × Nat
  | [], cnt => ([], [], cnt)
  | s :: rest, cnt =>
    let (tid, cnt1) :=
      match s.task_id with
      | some t => (t, cnt)
      | none => (cnt, cnt + 1)
    let s1 : BSig := ⟨s.oid, s.args, some tid, some gid, some bodyRef⟩
    let (ts, ids, cnt2) := Chord.tagMembers bodyRef gid rest cnt1
    (s1 :: ts, tid :: ids, cnt2)

/-- What `Chord.run` did: the fresh group id, the header members after in-place
tagging, the expected result ids, the `on_chord_apply` registration (none in
eager mode), the header's group handle, and whether the header was submitted to
the queue (eager mode executes it synchronously instead). -/
structure ChordRunOut where
  gid : TaskId
  members : List BSig
  expected : List TaskId
  registered : Option ChordRegistration
  headerResult : Option GroupHandle
  headerSubmitted : Bool
deriving DecidableEq, Repr

/-- Embedding of `Chord.run` (src/celery/app/builtins.py).  A fresh `group_id`
is drawn; every header member is tagged in place with it and with the body
reference; in eager mode the header is applied synchronously (its GroupResult
handle is built by the same `Group.prepare` path, with the group id as the
group task's id) and no registration happens; otherwise the backend's
`on_chord_apply` is called with group id, body, interval, max_retries,
propagate and the expected ids, and the header is submitted via
`Group.apply_async`. -/
def Chord.run (header : List BSig) (body : BSig) (extraArgs : List Nat)
    (interval : Nat) (max_retries : Option Nat) (propagate : Bool) (eager : Bool)
    (cnt : Nat) : Option (ChordRunOut × Nat) :=
  let gid := cnt
  let tg := Chord.tagMembers body.oid gid header (cnt + 1)
  let members := tg.1
  let expected := tg.2.1
  if eager then
    match Group.prepare (some gid) members extraArgs tg.2.2 with
    | none => none
    | some (p, cnt2) => some (⟨gid, members, expected, none, some p.result, false⟩, cnt2)
  else
    let reg : ChordRegistration := ⟨gid, body, interval, max_retries, propagate, expected⟩
    match Group.apply_async (some gid) members extraArgs tg.2.2 with
    | none => none
    | some (g, cnt2) => some (⟨gid, members, expected, some reg, some g.result, true⟩, cnt2)

/-- A single-task result handle with its provenance parent link: `leaf rid` has
no parent (`parent = None`), `node rid p` has parent handle `p`. -/
inductive ARes where
  | leaf (rid : TaskId)
  | node (rid : TaskId) (parent : ARes)
deriving DecidableEq, Repr

def ARes.rid : ARes → TaskId
  | .leaf r => r
  | .node r _ => r

def ARes.parent : ARes → Option ARes
  | .leaf _ => none
  | .node _ p => some p

/-- What `Chord.apply_async` did: the body after the in-place overrides, the
callback id, the payload submitted as the chord orchestration task, that task's
own handle, and the returned handle. -/
structure ChordAsyncOut where
  body1 : BSig
  callback_id : TaskId
  payloadHeader : List BSig
  payloadBody : BSig
  chordTask : ARes
  result : ARes
deriving DecidableEq, Repr

/-- Embedding of `Chord.apply_async` (non-eager path).  The caller-level
`group_id` and `chord` overrides are written onto the body; the callback id is
`body.options.setdefault('task_id', task_id or uuid())` (Python's `or`
short-circuits, so the uuid is drawn only when no explicit task id was given);
the chord orchestration task itself is submitted with payload (header, body,
args) under a fresh task id, and the returned handle is the body's, with the
chord task's handle as parent. -/
def Chord.apply_async (header : List BSig) (body : BSig)
    (optGroupId : Option TaskId) (optChord : Option Nat) (optTaskId : Option TaskId)
    (cnt : Nat) : ChordAsyncOut × Nat :=
  let b1 := match optGroupId with
    | some g => body.withGroupId g
    | none => body
  let b2 := match optChord with
    | some c => b1.withChordRef c
    | none => b1
  let (fallback, cnt1) := match optTaskId with
    | some t => (t, cnt)
    | none => (cnt, cnt + 1)
  let (b3, callback_id) := match b2.task_id with
    | some t => (b2, t)
    | none => (b2.withTaskId fallback, fallback)
  let ctid := cnt1
  let parent : ARes := .leaf ctid
  (⟨b3, callback_id, header, b3, parent, .node callback_id parent⟩, cnt1 + 1)

/-! ### Chains

Chain steps are polymorphic signatures: a plain single-task signature, a group,
or a chord.  `prepare_steps` walks the steps, cloning, assigning ids, upgrading
groups followed by another step into chords, and linking each step to its
predecessor.  The source's `next_step` variable is initialized once before the
loop and never reset inside it; the embedding reproduces this exactly. -/

/-- A small closed language for the functions behind single-task signatures, so
that eager execution is computable: `headPlus k` returns its first positional
argument (0 when absent) plus `k`; `constFn n` ignores its arguments. -/
inductive TaskFn where
  | headPlus (k : Nat)
  | constFn (n : Nat)
deriving DecidableEq, Repr

def TaskFn.eval : TaskFn → List Nat → Nat
  | .headPlus k, xs => xs.headD 0 + k
  | .constFn n, _ => n

/-- A chain step: a single-task signature, a group of steps, or a chord built
from a header step and a body step.  Every form carries the options this layer
touches (`task_id`, `group_id`, the chord-body reference `chordRef`) and its
callback links (`opts['link']`). -/
inductive CStep where
  | single (fn : TaskFn) (args : List Nat) (task_id group_id chordRef : Option TaskId)
      (links : List CStep)
  | grp (members : List CStep) (args : List Nat) (task_id group_id chordRef : Option TaskId)
      (links : List CStep)
  | chrd (header body : CStep) (args : List Nat) (task_id group_id chordRef : Option TaskId)
      (links : List CStep)

def CStep.task_id : CStep → Option TaskId
  | .single _ _ t _ _ _ => t
  | .grp _ _ t _ _ _ => t
  | .chrd _ _ _ t _ _ _ => t

def CStep.group_id : CStep → Option TaskId
  | .single _ _ _ g _ _ => g
  | .grp _ _ _ g _ _ => g
  | .chrd _ _ _ _ g _ _ => g

def CStep.chordRef : CStep → Option TaskId
  | .single _ _ _ _ c _ => c
  | .grp _ _ _ _ c _ => c
  | .chrd _ _ _ _ _ c _ => c

def CStep.withTaskId (t : TaskId) : CStep → CStep
  | .single f a _ g c l => .single f a (some t) g c l
  | .grp m a _ g c l => .grp m a (some t) g c l
  | .chrd h b a _ g c l => .chrd h b a (some t) g c l

def CStep.withGroupId (g : TaskId) : CStep → CStep
  | .single f a t _ c l => .single f a t (some g) c l
  | .grp m a t _ c l => .grp m a t (some g) c l
  | .chrd h b a t _ c l => .chrd h b a t (some g) c l

def CStep.withChordRef (c : TaskId) : CStep → CStep
  | .single f a t g _ l => .single f a t g (some c) l
  | .grp m a t g _ l => .grp m a t g (some c) l
  | .chrd h b a t g _ l => .chrd h b a t g (some c) l

/-- `sig.link(other)`: append `other` to the step's callback list. -/
def CStep.addLink : CStep → CStep → CStep
  | .single f a t g c l, other => .single f a t g c (l ++ [other])
  | .grp m a t g c l, other => .grp m a t g c (l ++ [other])
  | .chrd h b a t g c l, other => .chrd h b a t g c (l ++ [other])

def CStep.links : CStep → List CStep
  | .single _ _ _ _ _ l => l
  | .grp _ _ _ _ _ l => l
  | .chrd _ _ _ _ _ _ l => l

/-- The `isinstance(task, group)` test of `prepare_steps`. -/
def CStep.isGroup : CStep → Bool
  | .grp _ _ _ _ _ _ => true
  | _ => false

def CStep.isChord : CStep → Bool
  | .chrd _ _ _ _ _ _ _ => true
  | _ => false

/-- canvas `Signature.clone(extra)`: copy the signature with `extra` prepended
to its own positional args and the options, including any `task_id`, copied
over.  A group's members are untouched by clone — partial args are distributed
onto members only at apply time. -/
def CStep.clone (extra : List Nat) : CStep → CStep
  | .single f a t g c l => .single f (extra ++ a) t g c l
  | .grp m a t g c l => .grp m (extra ++ a) t g c l
  | .chrd h b a t g c l => .chrd h b (extra ++ a) t g c l

/-- Reuse the step's `task_id` when present, else assign a fresh uuid in place. -/
def CStep.ensureTaskId (s : CStep) (cnt : Nat) : CStep × TaskId × Nat :=
  match s.task_id with
  | some t => (s, t, cnt)
  | none => (s.withTaskId cnt, cnt, cnt + 1)

/-- Rewrite the last element of a list in place (Python's mutation of the object
also referenced by `tasks[-1]`). -/
def updateLast (f : CStep → CStep) : List CStep → List CStep
  | [] => []
  | [x] => [f x]
  | x :: xs => x :: updateLast f xs

/-- One conditional caller-level override of `Chain.apply_async`
(`if opt: tasks[-1].set(...)`): when the option is present, mutate the last
task in place, else leave the list untouched. -/
def condUpdateLast (f : TaskId → CStep → CStep) (o : Option TaskId)
    (l : List CStep) : List CStep :=
  match o with
  | some v => updateLast (f v) l
  | none => l

/-- The effect of one conditional override on a single signature. -/
def condApply (f : TaskId → CStep → CStep) (o : Option TaskId) (s : CStep) : CStep :=
  match o with
  | some v => f v s
  | none => s

/-- One iteration's tail of the `prepare_steps` loop: append the prepared step,
linking it to the previous task (the accumulated list's last element, mutated in
place) and recording the previous result as the new result's parent when a
previous step exists. -/
def Chain.pushStep (t2 : CStep) (tid : TaskId) (tasks : List CStep)
    (results : List ARes) : List CStep × List ARes :=
  match results.getLast? with
  | none => (tasks ++ [t2], results ++ [ARes.leaf tid])
  | some pres =>
    (updateLast (fun p => p.addLink t2) tasks ++ [t2], results ++ [ARes.node tid pres])

/-- The loop of `Chain.prepare_steps` (src/celery/app/builtins.py).  State:
remaining steps, first-iteration flag, the loop's `next_step` variable (set when
a group consumes its successor and — exactly as in the source — never reset
afterwards), the fresh counter, and the accumulated tasks and results. -/
def Chain.prepLoop (args : List Nat) : List CStep → Bool → Option CStep → Nat →
    List CStep → List ARes → List CStep × List ARes × Nat
  | [], _, _, cnt, tasks, results => (tasks, results, cnt)
  | t :: rest, first, nextStep, cnt, tasks, results =>
    let t0 := if first then t.clone args else t.clone []
    let (t1, tid, cnt1) := t0.ensureTaskId cnt
    if t1.isGroup then
      match rest with
      | [] =>
        let pr := Chain.pushStep t1 tid tasks results
        (pr.1, pr.2, cnt1)
      | n :: r =>
        let t2 := CStep.chrd t1 n [] (some tid) none none []
        let pr := Chain.pushStep t2 tid tasks results
        Chain.prepLoop args r false (some n) cnt1 pr.1 pr.2
    else
      let t2 := match nextStep with
        | some n => CStep.chrd t1 n [] (some tid) none none []
        | none => t1
      let pr := Chain.pushStep t2 tid tasks results
      Chain.prepLoop args rest false nextStep cnt1 pr.1 pr.2

/-- Embedding of `Chain.prepare_steps`: returns the prepared task list, the
result handles (with parent provenance), and the advanced fresh counter. -/
def Chain.prepare_steps (args : List Nat) (steps : List CStep) (cnt : Nat) :
    List CStep × List ARes × Nat :=
  Chain.prepLoop args steps true none cnt [] []

/-- What `Chain.apply_async` did: the final task list (after the caller-level
overrides on the last step), the prepared results, the single step submitted to
the queue, and the returned chain result. -/
structure ChainAsyncOut where
  tasks : List CStep
  results : List ARes
  submitted : CStep
  result : ARes

/-- Embedding of `Chain.apply_async` (non-eager path): prepare the steps, write
the caller-level `group_id`, `chord` and `task_id` overrides onto the last
prepared step, submit only the first step, and return the last step's handle
(rebuilt from the override `task_id` when one was supplied).  The source raises
an IndexError on an empty chain, hence the `Option`. -/
def Chain.apply_async (args : List Nat) (steps : List CStep)
    (optGroupId : Option TaskId) (optChord : Option TaskId) (optTaskId : Option TaskId)
    (cnt : Nat) : Option (ChainAsyncOut × Nat) :=
  let (ts, rs, cnt1) := Chain.prepare_steps args steps cnt
  match rs.getLast? with
  | none => none
  | some lastRes =>
    let ts3 := condUpdateLast CStep.withTaskId optTaskId
      (condUpdateLast CStep.withChordRef optChord
        (condUpdateLast CStep.withGroupId optGroupId ts))
    let res := match optTaskId with
      | some t => ARes.leaf t
      | none => lastRes
    match ts3.head? with
    | none => none
    | some fst => some (⟨ts3, rs, fst, res⟩, cnt1)

/-- An eager (synchronous) result: the resolved value plus the parent chain. -/
inductive ERes where
  | leaf (value : Nat)
  | node (value : Nat) (parent : ERes)
deriving DecidableEq, Repr

def ERes.value : ERes → Nat
  | .leaf v => v
  | .node v _ => v

def ERes.parent : ERes → Option ERes
  | .leaf _ => none
  | .node _ p => some p

/-- Eager application of one step's signature to extra (prepended) positional
args.  Only single-task signatures resolve to a plain value; a group or chord
signature goes through its own apply path and is outside this model, hence
`none`. -/
def CStep.applyEager (extra : List Nat) : CStep → Option Nat
  | .single fn args _ _ _ _ => some (fn.eval (extra ++ args))
  | _ => none

/-- The loop of eager `Chain.apply`: each step is applied with the previous
step's fetched value as its sole extra argument (and with no extra args at all
for the first step — exactly as the source does), and every result records its
predecessor as parent. -/
def Chain.applyLoop : List CStep → Option ERes → Option ERes
  | [], prev => prev
  | t :: rest, prev =>
    let extra := match prev with
      | some p => [p.value]
      | none => []
    match t.applyEager extra with
    | none => none
    | some v =>
      let res := match prev with
        | some p => ERes.node v p
        | none => ERes.leaf v
      Chain.applyLoop rest (some res)

/-- Embedding of eager `Chain.apply` (src/celery/app/builtins.py).  Note that
the source never reads its `args` parameter: the first step is applied with no
caller-supplied extra args.  The embedding keeps the unused parameter to mirror
the signature. -/
def Chain.apply (_args : List Nat) (steps : List CStep) : Option ERes :=
  Chain.applyLoop steps none

/-- Modelled from the spec: the sequential manual application `Sk(...S2(S1(A)))`
— the first signature applied with the initial args A, every later signature
applied with exactly the previous value as its sole argument. -/
def manualChain (a : List Nat) : List CStep → Option Nat
  | [] => none
  | [s] => s.applyEager a
  | s :: rest =>
    match s.applyEager a with
    | none => none
    | some v => manualChain [v] rest

/-- Demo signatures for concrete chain computations: plain single-task
signatures over `headPlus k` (first positional arg, defaulting to 0, plus k),
and a two-member group. -/
def sigA : CStep := .single (.headPlus 1) [] none none none []

def sigB : CStep := .single (.headPlus 2) [] none none none []

def sigC : CStep := .single (.headPlus 3) [] none none none []

def sigD : CStep := .single (.headPlus 4) [] none none none []

def sigG : CStep := .grp [sigA, sigB] [] none none none []

/-! ### Lemmas about the completion detector -/

theorem unlock_chord_not_ready {children : List ChildState} (sn : Bool) (cb iv : Nat)
    (pr : Bool) (h : children.all ChildState.ready = false) :
    unlock_chord sn cb iv pr children = .retried iv := by
  simp [unlock_chord, h]

theorem unlock_chord_ready_ok {children : List ChildState} {vs : List JoinVal} (sn : Bool)
    (cb iv : Nat) {pr : Bool} (h : children.all ChildState.ready = true)
    (hj : joinResults pr children = .ok vs) :
    unlock_chord sn cb iv pr children = .submitted cb vs (joinMethodOf sn) := by
  simp [unlock_chord, h, hj]

theorem unlock_chord_ready_error {children : List ChildState} {e : Nat} (sn : Bool)
    (cb iv : Nat) {pr : Bool} (h : children.all ChildState.ready = true)
    (hj : joinResults pr children = .error e) :
    unlock_chord sn cb iv pr children = .raised e (joinMethodOf sn) := by
  simp [unlock_chord, h, hj]

theorem unlock_chord_submitted_ready {children : List ChildState} {sn pr : Bool}
    {cb iv cb2 : Nat} {vs : List JoinVal} {m : JoinMethod}
    (h : unlock_chord sn cb iv pr children = .submitted cb2 vs m) :
    children.all ChildState.ready = true := by
  by_contra hne
  rw [Bool.not_eq_true] at hne
  rw [unlock_chord_not_ready sn cb iv pr hne] at h
  exact UnlockAction.noConfusion h

theorem exceptMap_ok {α β γ : Type} {f : β → γ} {x : Except α β} {v : γ}
    (h : x.map f = .ok v) : ∃ b, x = .ok b ∧ v = f b := by
  cases x with
  | error e => simp [Except.map] at h
  | ok b => exact ⟨b, rfl, by simpa [Except.map] using h.symm⟩

theorem joinResults_false_ok (children : List ChildState) :
    joinResults false children = .ok (children.map ChildState.joinVal) := by
  induction children with
  | nil => rfl
  | cons c cs ih => cases c <;> simp [joinResults, ih, Except.map]

theorem joinResults_ok_ordered {pr : Bool} :
    ∀ (children : List ChildState) (vs : List JoinVal),
      joinResults pr children = .ok vs → vs = children.map ChildState.joinVal := by
  intro children
  induction children with
  | nil =>
    intro vs h
    simp only [joinResults] at h
    injection h with h
    exact h.symm
  | cons c cs ih =>
    intro vs h
    cases c <;> cases pr <;> simp only [joinResults] at h
    case failure.true => exact absurd h (by simp)
    all_goals
      obtain ⟨vs', hcs, hv⟩ := exceptMap_ok h
      rw [ih vs' hcs] at hv
      simp [hv, ChildState.joinVal]

theorem joinResults_true_failure :
    ∀ (children : List ChildState) (i e : Nat),
      children.get? i = some (.failure e) →
      ∃ e2, joinResults true children = .error e2 := by
  intro children
  induction children with
  | nil => intro i e h; simp at h
  | cons c cs ih =>
    intro i e h
    cases c with
    | failure e3 => exact ⟨e3, rfl⟩
    | pending =>
      cases i with
      | zero => simp at h
      | succ j =>
        obtain ⟨e2, he⟩ := ih j e (by simpa using h)
        exact ⟨e2, by simp [joinResults, he, Except.map]⟩
    | success v =>
      cases i with
      | zero => simp at h
      | succ j =>
        obtain ⟨e2, he⟩ := ih j e (by simpa using h)
        exact ⟨e2, by simp [joinResults, he, Except.map]⟩

theorem detectorRun_never_ready {sched : Nat → List ChildState} (sn : Bool) (cb iv : Nat)
    (pr : Bool) (h : ∀ m, (sched m).all ChildState.ready = false) :
    ∀ fuel n, detectorRun sched sn cb iv pr n fuel
      = (List.replicate fuel (UnlockAction.retried iv), .timeout (n + fuel)) := by
  intro fuel
  induction fuel with
  | zero => intro n; simp [detectorRun]
  | succ f ih =>
    intro n
    simp only [detectorRun]
    rw [unlock_chord_not_ready sn cb iv pr (h n)]
    rw [ih (n + 1)]
    have harith : n + 1 + f = n + (f + 1) := by omega
    simp [List.replicate_succ, harith]

theorem detectorRun_fires {sched : Nat → List ChildState} (sn : Bool) (cb iv : Nat)
    (pr : Bool) :
    ∀ (K n fuel : Nat) (vs : List JoinVal),
      (∀ m, m < K → (sched (n + m)).all ChildState.ready = false) →
      (sched (n + K)).all ChildState.ready = true →
      joinResults pr (sched (n + K)) = .ok vs →
      K < fuel →
      detectorRun sched sn cb iv pr n fuel
        = (List.replicate K (UnlockAction.retried iv)
             ++ [UnlockAction.submitted cb vs (joinMethodOf sn)],
           .fired (UnlockAction.submitted cb vs (joinMethodOf sn)) (n + K)) := by
  intro K
  induction K with
  | zero =>
    intro n fuel vs hbefore hready hjoin hfuel
    cases fuel with
    | zero => exact absurd hfuel (by omega)
    | succ f =>
      simp only [Nat.add_zero] at hready hjoin
      simp only [detectorRun]
      rw [unlock_chord_ready_ok sn cb iv hready hjoin]
      simp
  | succ k ih =>
    intro n fuel vs hbefore hready hjoin hfuel
    cases fuel with
    | zero => exact absurd hfuel (by omega)
    | succ f =>
      have hn : (sched n).all ChildState.ready = false := by
        simpa using hbefore 0 (by omega)
      have h1 : ∀ m, m < k → (sched (n + 1 + m)).all ChildState.ready = false := by
        intro m hm
        have := hbefore (m + 1) (by omega)
        rwa [show n + (m + 1) = n + 1 + m by omega] at this
      have h2 : (sched (n + 1 + k)).all ChildState.ready = true := by
        rwa [show n + (k + 1) = n + 1 + k by omega] at hready
      have h3 : joinResults pr (sched (n + 1 + k)) = .ok vs := by
        rwa [show n + (k + 1) = n + 1 + k by omega] at hjoin
      simp only [detectorRun]
      rw [unlock_chord_not_ready sn cb iv pr hn]
      rw [ih (n + 1) f vs h1 h2 h3 (by omega)]
      have harith : n + 1 + k = n + (k + 1) := by omega
      simp [List.replicate_succ, harith]

theorem detectorRun_submit_at_most_once (sched : Nat → List ChildState) (sn : Bool)
    (cb iv : Nat) (pr : Bool) :
    ∀ fuel n,
      ((detectorRun sched sn cb iv pr n fuel).1.countP (fun a => a.isSubmitted)) ≤ 1 := by
  intro fuel
  induction fuel with
  | zero => intro n; simp [detectorRun]
  | succ f ih =>
    intro n
    simp only [detectorRun]
    split
    · simpa [List.countP_cons, UnlockAction.isSubmitted] using ih (n + 1)
    · simp [List.countP_cons, UnlockAction.isSubmitted]
    · simp [List.countP_cons, UnlockAction.isSubmitted]

theorem detectorRun_submit_only_ready (sched : Nat → List ChildState) (sn : Bool)
    (cb iv : Nat) (pr : Bool) :
    ∀ (fuel n j : Nat) (a : UnlockAction),
      (detectorRun sched sn cb iv pr n fuel).1.get? j = some a →
      a.isSubmitted = true →
      (sched (n + j)).all ChildState.ready = true := by
  intro fuel
  induction fuel with
  | zero => intro n j a h; simp [detectorRun] at h
  | succ f ih =>
    intro n j a hget hsub
    simp only [detectorRun] at hget
    split at hget
    · cases j with
      | zero =>
        simp at hget
        rw [← hget] at hsub
        simp [UnlockAction.isSubmitted] at hsub
      | succ j2 =>
        simp only [List.get?_cons_succ] at hget
        have := ih (n + 1) j2 a hget hsub
        rwa [show n + 1 + j2 = n + (j2 + 1) by omega] at this
    · cases j with
      | zero =>
        simp at hget
        rename_i heq
        simpa using unlock_chord_submitted_ready heq
      | succ j2 => simp at hget
    · cases j with
      | zero =>
        simp at hget
        rw [← hget] at hsub
        simp [UnlockAction.isSubmitted] at hsub
      | succ j2 => simp at hget

/-! ### Claim C1 -/

/-- C1: on any unlock_chord invocation where not every header result is ready, the
body callback is not submitted and the task reschedules itself; on an invocation
where all are ready (and the join returns a value list) the callback is
submitted with the joined list, which is exactly the ordered list of the header
results.  Moreover, over any whole detector run, a submission happens only at a
poll where every header result is ready — never before — and at most once per
chord submission. -/
theorem C1_unlock_chord_gating (sn : Bool) (cb iv : Nat) (pr : Bool) :
    (∀ children : List ChildState, children.all ChildState.ready = false →
        unlock_chord sn cb iv pr children = .retried iv) ∧
    (∀ (children : List ChildState) (vs : List JoinVal),
        children.all ChildState.ready = true → joinResults pr children = .ok vs →
        unlock_chord sn cb iv pr children = .submitted cb vs (joinMethodOf sn) ∧
          vs = children.map ChildState.joinVal) ∧
    (∀ (sched : Nat → List ChildState) (fuel n j : Nat) (a : UnlockAction),
        (detectorRun sched sn cb iv pr n fuel).1.get? j = some a →
        a.isSubmitted = true → (sched (n + j)).all ChildState.ready = true) ∧
    (∀ (sched : Nat → List ChildState) (fuel n : Nat),
        ((detectorRun sched sn cb iv pr n fuel).1.countP (fun a => a.isSubmitted)) ≤ 1) :=
  ⟨fun _ h => unlock_chord_not_ready sn cb iv pr h,
   fun children vs h hj =>
     ⟨unlock_chord_ready_ok sn cb iv h hj, joinResults_ok_ordered children vs hj⟩,
   fun sched => detectorRun_submit_only_ready sched sn cb iv pr,
   fun sched => detectorRun_submit_at_most_once sched sn cb iv pr⟩

/-- Witness for C1 at concrete inputs. -/
theorem C1_unlock_chord_gating_witness :
    unlock_chord false 9 7 false [ChildState.success 1, ChildState.pending]
      = .retried 7 ∧
    (unlock_chord false 9 7 false [ChildState.success 1, ChildState.success 2]
       = .submitted 9 [JoinVal.val 1, JoinVal.val 2] (joinMethodOf false) ∧
     [JoinVal.val 1, JoinVal.val 2]
       = [ChildState.success 1, ChildState.success 2].map ChildState.joinVal) ∧
    ((fun _ => [ChildState.success 5]) (0 + 0)).all ChildState.ready = true ∧
    ((detectorRun (fun _ => [ChildState.success 5]) false 9 7 false 0 1).1.countP
        (fun a => a.isSubmitted)) ≤ 1 :=
  ⟨(C1_unlock_chord_gating false 9 7 false).1 _ (by decide),
   (C1_unlock_chord_gating false 9 7 false).2.1 _ _ (by decide) rfl,
   (C1_unlock_chord_gating false 9 7 false).2.2.1 (fun _ => [ChildState.success 5]) 1 0 0
     (UnlockAction.submitted 9 [JoinVal.val 5] JoinMethod.generic) (by decide) (by decide),
   (C1_unlock_chord_gating false 9 7 false).2.2.2 (fun _ => [ChildState.success 5]) 1 0⟩

/-! ### Claim C2 -/

/-- C2: polls are numbered from 0.  For a header that becomes ready only at poll
K (the first K polls find it unready), the detector performs exactly K
reschedules and then triggers the body on poll K; for a header that never
becomes ready, with a bounded retry count R, the run ends in the timeout outcome
(ChordTimeout) after exactly R attempts, all of them reschedules, so the body is
never submitted. -/
theorem C2_detector_retry_counts (sn : Bool) (cb iv : Nat) (pr : Bool) :
    (∀ (sched : Nat → List ChildState) (K R : Nat) (vs : List JoinVal),
        (∀ m, m < K → (sched m).all ChildState.ready = false) →
        (sched K).all ChildState.ready = true →
        joinResults pr (sched K) = .ok vs →
        K < R →
        detectorRun sched sn cb iv pr 0 R
          = (List.replicate K (UnlockAction.retried iv)
               ++ [UnlockAction.submitted cb vs (joinMethodOf sn)],
             .fired (UnlockAction.submitted cb vs (joinMethodOf sn)) K)) ∧
    (∀ (sched : Nat → List ChildState) (R : Nat),
        (∀ m, (sched m).all ChildState.ready = false) →
        detectorRun sched sn cb iv pr 0 R
          = (List.replicate R (UnlockAction.retried iv), .timeout R)) := by
  constructor
  · intro sched K R vs hb hr hj hKR
    have := detectorRun_fires sn cb iv pr K 0 R vs
      (fun m hm => by simpa using hb m hm) (by simpa using hr) (by simpa using hj) hKR
    simpa using this
  · intro sched R h
    have := detectorRun_never_ready sn cb iv pr h R 0
    simpa using this

/-- Witness for C2 at concrete inputs: readiness arrives at poll 3 with budget
10 (three reschedules, fired on poll 3), and a never-ready header with budget 4
(timeout after exactly 4 attempts). -/
theorem C2_detector_retry_counts_witness :
    detectorRun (fun n => if n < 3 then [ChildState.pending] else [ChildState.success 4])
        false 9 7 false 0 10
      = (List.replicate 3 (UnlockAction.retried 7)
           ++ [UnlockAction.submitted 9 [JoinVal.val 4] (joinMethodOf false)],
         .fired (UnlockAction.submitted 9 [JoinVal.val 4] (joinMethodOf false)) 3) ∧
    detectorRun (fun _ => [ChildState.pending]) false 9 7 false 0 4
      = (List.replicate 4 (UnlockAction.retried 7), .timeout 4) :=
  ⟨(C2_detector_retry_counts false 9 7 false).1 _ 3 10 [JoinVal.val 4]
     (fun m hm => by
        match m with
        | 0 => rfl
        | 1 => rfl
        | 2 => rfl
        | n + 3 => exact absurd hm (by omega))
     (by decide) rfl (by decide),
   (C2_detector_retry_counts false 9 7 false).2 _ 4 (fun _ => rfl)⟩

/-! ### Claim C5 -/

/-- C5: unlock_chord selects the backend-native bulk join exactly when the group
result supports native join, and the generic join otherwise; once all header
results are ready, the selected join is what runs (the outcome is either a
submission or a raise carrying that method).  With propagate=true, a failed
header member makes the join raise and no callback is submitted; with
propagate=false the join returns the ordered value list with the failure marker
at the failed member's position, and the callback is submitted with that
list. -/
theorem C5_join_method_and_propagate (sn : Bool) (cb iv : Nat) :
    (joinMethodOf true = .native ∧ joinMethodOf false = .generic) ∧
    (∀ (pr : Bool) (children : List ChildState),
        children.all ChildState.ready = true →
        (∃ vs, unlock_chord sn cb iv pr children = .submitted cb vs (joinMethodOf sn)) ∨
        (∃ e, unlock_chord sn cb iv pr children = .raised e (joinMethodOf sn))) ∧
    (∀ (children : List ChildState) (i e : Nat),
        children.all ChildState.ready = true →
        children.get? i = some (.failure e) →
        (∃ e2, unlock_chord sn cb iv true children = .raised e2 (joinMethodOf sn)) ∧
        (∀ cb2 vs m, unlock_chord sn cb iv true children ≠ .submitted cb2 vs m)) ∧
    (∀ (children : List ChildState) (i e : Nat),
        children.all ChildState.ready = true →
        children.get? i = some (.failure e) →
        unlock_chord sn cb iv false children
          = .submitted cb (children.map ChildState.joinVal) (joinMethodOf sn) ∧
        (children.map ChildState.joinVal).get? i = some (.failMarker e)) := by
  refine ⟨⟨rfl, rfl⟩, ?_, ?_, ?_⟩
  · intro pr children h
    cases hj : joinResults pr children with
    | ok vs => exact Or.inl ⟨vs, unlock_chord_ready_ok sn cb iv h hj⟩
    | error e => exact Or.inr ⟨e, unlock_chord_ready_error sn cb iv h hj⟩
  · intro children i e h hf
    obtain ⟨e2, he2⟩ := joinResults_true_failure children i e hf
    have hr := unlock_chord_ready_error sn cb iv h he2
    refine ⟨⟨e2, hr⟩, ?_⟩
    intro cb2 vs m hs
    rw [hr] at hs
    exact UnlockAction.noConfusion hs
  · intro children i e h hf
    refine ⟨unlock_chord_ready_ok sn cb iv h (joinResults_false_ok children), ?_⟩
    rw [List.get?_map, hf]
    rfl

/-- Witness for C5 at a concrete ready header with one failed member. -/
theorem C5_join_method_and_propagate_witness :
    (joinMethodOf true = .native ∧ joinMethodOf false = .generic) ∧
    ((∃ vs, unlock_chord true 9 7 false [ChildState.success 1, ChildState.failure 5]
        = .submitted 9 vs (joinMethodOf true)) ∨
     (∃ e, unlock_chord true 9 7 false [ChildState.success 1, ChildState.failure 5]
        = .raised e (joinMethodOf true))) ∧
    ((∃ e2, unlock_chord true 9 7 true [ChildState.success 1, ChildState.failure 5]
        = .raised e2 (joinMethodOf true)) ∧
     (∀ cb2 vs m, unlock_chord true 9 7 true [ChildState.success 1, ChildState.failure 5]
        ≠ .submitted cb2 vs m)) ∧
    (unlock_chord true 9 7 false [ChildState.success 1, ChildState.failure 5]
       = .submitted 9 ([ChildState.success 1, ChildState.failure 5].map ChildState.joinVal)
           (joinMethodOf true) ∧
     ([ChildState.success 1, ChildState.failure 5].map ChildState.joinVal).get? 1
       = some (.failMarker 5)) :=
  ⟨(C5_join_method_and_propagate true 9 7).1,
   (C5_join_method_and_propagate true 9 7).2.1 false _ (by decide),
   (C5_join_method_and_propagate true 9 7).2.2.1 _ 1 5 (by decide) (by decide),
   (C5_join_method_and_propagate true 9 7).2.2.2 _ 1 5 (by decide) (by decide)⟩

/-! ### Lemmas about group preparation and chord member tagging -/

theorem prepareMembers_length (gid : TaskId) :
    ∀ (tasks : List BSig) (cnt : Nat),
      (Group.prepareMembers gid tasks cnt).1.length = tasks.length ∧
      (Group.prepareMembers gid tasks cnt).2.1.length = tasks.length := by
  intro tasks
  induction tasks with
  | nil => intro cnt; simp [Group.prepareMembers]
  | cons s rest ih =>
    intro cnt
    cases hs : s.task_id <;>
      simp [Group.prepareMembers, hs, (ih _).1, (ih _).2]

theorem prepareMembers_get (gid : TaskId) :
    ∀ (tasks : List BSig) (cnt i : Nat) (t0 : BSig),
      tasks[i]? = some t0 →
      ∃ m tid,
        (Group.prepareMembers gid tasks cnt).1[i]? = some m ∧
        (Group.prepareMembers gid tasks cnt).2.1[i]? = some tid ∧
        m.oid = t0.oid ∧ m.args = t0.args ∧ m.chordRef = t0.chordRef ∧
        m.group_id = some gid ∧ m.task_id = some tid ∧
        (∀ t, t0.task_id = some t → tid = t) ∧
        (t0.task_id = none → cnt ≤ tid) := by
  intro tasks
  induction tasks with
  | nil => intro cnt i t0 h; simp at h
  | cons s rest ih =>
    intro cnt i t0 h
    cases i with
    | zero =>
      simp only [List.getElem?_cons_zero, Option.some.injEq] at h
      subst h
      cases hs : s.task_id with
      | some t =>
        exact ⟨s.withGroupId gid, t,
          by simp [Group.prepareMembers, hs],
          by simp [Group.prepareMembers, hs],
          rfl, rfl, rfl, rfl,
          by simp [BSig.withGroupId, hs],
          fun t2 h2 => Option.some.inj h2,
          fun h2 => Option.noConfusion h2⟩
      | none =>
        exact ⟨(s.withGroupId gid).withTaskId cnt, cnt,
          by simp [Group.prepareMembers, hs],
          by simp [Group.prepareMembers, hs],
          rfl, rfl, rfl, rfl, rfl,
          fun t2 h2 => Option.noConfusion h2,
          fun _ => Nat.le_refl cnt⟩
    | succ j =>
      simp only [List.getElem?_cons_succ] at h
      cases hs : s.task_id with
      | some t =>
        obtain ⟨m, tid, h1, h2, h3, h4, h5, h6, h7, h8, h9⟩ := ih cnt j t0 h
        exact ⟨m, tid,
          by simp [Group.prepareMembers, hs, h1],
          by simp [Group.prepareMembers, hs, h2],
          h3, h4, h5, h6, h7, h8, h9⟩
      | none =>
        obtain ⟨m, tid, h1, h2, h3, h4, h5, h6, h7, h8, h9⟩ := ih (cnt + 1) j t0 h
        exact ⟨m, tid,
          by simp [Group.prepareMembers, hs, h1],
          by simp [Group.prepareMembers, hs, h2],
          h3, h4, h5, h6, h7, h8,
          fun h0 => Nat.le_of_succ_le (h9 h0)⟩

theorem tagMembers_length (bodyRef gid : TaskId) :
    ∀ (header : List BSig) (cnt : Nat),
      (Chord.tagMembers bodyRef gid header cnt).1.length = header.length ∧
      (Chord.tagMembers bodyRef gid header cnt).2.1.length = header.length := by
  intro header
  induction header with
  | nil => intro cnt; simp [Chord.tagMembers]
  | cons s rest ih =>
    intro cnt
    cases hs : s.task_id <;>
      simp [Chord.tagMembers, hs, (ih _).1, (ih _).2]

theorem tagMembers_get (bodyRef gid : TaskId) :
    ∀ (header : List BSig) (cnt i : Nat) (t0 : BSig),
      header[i]? = some t0 →
      ∃ m tid,
        (Chord.tagMembers bodyRef gid header cnt).1[i]? = some m ∧
        (Chord.tagMembers bodyRef gid header cnt).2.1[i]? = some tid ∧
        m.oid = t0.oid ∧ m.args = t0.args ∧
        m.group_id = some gid ∧ m.chordRef = some bodyRef ∧ m.task_id = some tid ∧
        (∀ t, t0.task_id = some t → tid = t) ∧
        (t0.task_id = none → cnt ≤ tid) := by
  intro header
  induction header with
  | nil => intro cnt i t0 h; simp at h
  | cons s rest ih =>
    intro cnt i t0 h
    cases i with
    | zero =>
      simp only [List.getElem?_cons_zero, Option.some.injEq] at h
      subst h
      cases hs : s.task_id with
      | some t =>
        exact ⟨⟨s.oid, s.args, some t, some gid, some bodyRef⟩, t,
          by simp [Chord.tagMembers, hs],
          by simp [Chord.tagMembers, hs],
          rfl, rfl, rfl, rfl, rfl,
          fun t2 h2 => Option.some.inj h2,
          fun h2 => Option.noConfusion h2⟩
      | none =>
        exact ⟨⟨s.oid, s.args, some cnt, some gid, some bodyRef⟩, cnt,
          by simp [Chord.tagMembers, hs],
          by simp [Chord.tagMembers, hs],
          rfl, rfl, rfl, rfl, rfl,
          fun t2 h2 => Option.noConfusion h2,
          fun _ => Nat.le_refl cnt⟩
    | succ j =>
      simp only [List.getElem?_cons_succ] at h
      cases hs : s.task_id with
      | some t =>
        obtain ⟨m, tid, h1, h2, h3, h4, h5, h6, h7, h8, h9⟩ := ih cnt j t0 h
        exact ⟨m, tid,
          by simp [Chord.tagMembers, hs, h1],
          by simp [Chord.tagMembers, hs, h2],
          h3, h4, h5, h6, h7, h8, h9⟩
      | none =>
        obtain ⟨m, tid, h1, h2, h3, h4, h5, h6, h7, h8, h9⟩ := ih (cnt + 1) j t0 h
        exact ⟨m, tid,
          by simp [Chord.tagMembers, hs, h1],
          by simp [Chord.tagMembers, hs, h2],
          h3, h4, h5, h6, h7, h8,
          fun h0 => Nat.le_of_succ_le (h9 h0)⟩

/-- Preparing already-tagged members reuses every task id: the prepared id list
is exactly the expected list collected by `Chord.tagMembers`, and no fresh uuid
is drawn. -/
theorem prepareMembers_on_tagged (g2 bodyRef gid : TaskId) :
    ∀ (header : List BSig) (cnt cnt2 : Nat),
      (Group.prepareMembers g2 ((Chord.tagMembers bodyRef gid header cnt).1) cnt2).2.1
        = (Chord.tagMembers bodyRef gid header cnt).2.1 ∧
      (Group.prepareMembers g2 ((Chord.tagMembers bodyRef gid header cnt).1) cnt2).2.2
        = cnt2 := by
  intro header
  induction header with
  | nil => intro cnt cnt2; simp [Chord.tagMembers, Group.prepareMembers]
  | cons s rest ih =>
    intro cnt cnt2
    cases hs : s.task_id <;>
      simp [Chord.tagMembers, Group.prepareMembers, hs, (ih _ _).1, (ih _ _).2]

theorem Group.prepare_exists (optTaskId : Option TaskId) (a : BSig) (rest : List BSig)
    (args : List Nat) (cnt : Nat) :
    ∃ p cnt1, Group.prepare optTaskId (a :: rest) args cnt = some (p, cnt1) :=
  ⟨_, _, rfl⟩

theorem Group.prepare_eq_some {optTaskId : Option TaskId} {tasks : List BSig}
    {args : List Nat} {cnt : Nat} {p : GroupPrepared} {cnt1 : Nat}
    (h : Group.prepare optTaskId tasks args cnt = some (p, cnt1)) :
    (∀ t, optTaskId = some t → p.gid = t) ∧
    (optTaskId = none → p.gid = cnt) ∧
    p.tasks = (Group.prepareMembers p.gid tasks (cnt + 1)).1 ∧
    p.result = ⟨p.gid, (Group.prepareMembers p.gid tasks (cnt + 1)).2.1⟩ ∧
    p.args = args ∧ cnt1 = (Group.prepareMembers p.gid tasks (cnt + 1)).2.2 ∧
    tasks ≠ [] := by
  cases tasks with
  | nil => simp [Group.prepare] at h
  | cons a rest =>
    cases optTaskId with
    | some t =>
      simp only [Group.prepare, Option.some.injEq, Prod.mk.injEq] at h
      obtain ⟨hp, hc⟩ := h
      subst hp
      exact ⟨fun t2 ht => Option.some.inj ht,
             fun ht => Option.noConfusion ht, rfl, rfl, rfl, hc.symm, by simp⟩
    | none =>
      simp only [Group.prepare, Option.some.injEq, Prod.mk.injEq] at h
      obtain ⟨hp, hc⟩ := h
      subst hp
      exact ⟨fun t2 ht => Option.noConfusion ht, fun _ => rfl, rfl, rfl, rfl,
             hc.symm, by simp⟩

theorem Group.apply_async_eq_some {optTaskId : Option TaskId} {tasks : List BSig}
    {extraArgs : List Nat} {cnt : Nat} {out : GroupAsyncOut} {cnt1 : Nat}
    (h : Group.apply_async optTaskId tasks extraArgs cnt = some (out, cnt1)) :
    ∃ p, Group.prepare optTaskId tasks extraArgs cnt = some (p, cnt1) ∧
      out = ⟨p.result, p, p.gid⟩ := by
  unfold Group.apply_async at h
  split at h
  · exact Option.noConfusion h
  · rename_i p c2 heq
    simp only [Option.some.injEq, Prod.mk.injEq] at h
    obtain ⟨ho, hc⟩ := h
    exact ⟨p, by rw [heq, hc], ho.symm⟩

/-! ### Claim C6 -/

/-- C6: Group.apply_async allocates the group id from the caller-supplied
`task_id` option when present and freshly otherwise; every member's options
receive that group id and a task id (reused when already present, drawn from the
fresh uuid supply when absent); and the returned GroupResultHandle equals the
one built by `prepare` inside the single submitted payload — it exists before
submission — with exactly N children, in member submission order, whose ids are
the members' task ids. -/
theorem C6_group_apply_async_spec (optTaskId : Option TaskId) (tasks : List BSig)
    (extraArgs : List Nat) (cnt : Nat) (h : tasks ≠ []) :
    ∃ out cnt1, Group.apply_async optTaskId tasks extraArgs cnt = some (out, cnt1) ∧
      (∀ t, optTaskId = some t → out.gid = t) ∧
      (optTaskId = none → out.gid = cnt) ∧
      out.result.gid = out.gid ∧
      out.result = out.submittedPayload.result ∧
      out.result.childIds.length = tasks.length ∧
      out.submittedPayload.tasks.length = tasks.length ∧
      (∀ (i : Nat) (t0 : BSig), tasks[i]? = some t0 →
        ∃ m tid, out.submittedPayload.tasks[i]? = some m ∧
          out.result.childIds[i]? = some tid ∧
          m.group_id = some out.gid ∧ m.task_id = some tid ∧
          (∀ t, t0.task_id = some t → tid = t) ∧
          (t0.task_id = none → cnt ≤ tid)) := by
  cases tasks with
  | nil => exact absurd rfl h
  | cons a rest =>
    obtain ⟨p, cnt1, hp⟩ := Group.prepare_exists optTaskId a rest extraArgs cnt
    obtain ⟨hgidS, hgidN, htasks, hres, hargs, hcnt, _⟩ := Group.prepare_eq_some hp
    refine ⟨⟨p.result, p, p.gid⟩, cnt1, ?_, ?_, ?_, ?_, rfl, ?_, ?_, ?_⟩
    · unfold Group.apply_async
      rw [hp]
    · intro t ht
      exact hgidS t ht
    · intro ht
      exact hgidN ht
    · show p.result.gid = p.gid
      rw [hres]
    · show p.result.childIds.length = (a :: rest).length
      rw [hres]
      exact (prepareMembers_length p.gid (a :: rest) (cnt + 1)).2
    · show p.tasks.length = (a :: rest).length
      rw [htasks]
      exact (prepareMembers_length p.gid (a :: rest) (cnt + 1)).1
    · intro i t0 hi
      obtain ⟨m, tid, h1, h2, _, _, _, h6, h7, h8, h9⟩ :=
        prepareMembers_get p.gid (a :: rest) (cnt + 1) i t0 hi
      refine ⟨m, tid, ?_, ?_, h6, h7, h8, fun h0 => Nat.le_of_succ_le (h9 h0)⟩
      · show p.tasks[i]? = some m
        rw [htasks]; exact h1
      · show p.result.childIds[i]? = some tid
        rw [hres]; exact h2

/-- Witness for C6 at a concrete group of two members, the second with a
pre-assigned task id. -/
theorem C6_group_apply_async_spec_witness :
    ∃ out cnt1,
      Group.apply_async none
          [⟨50, [], none, none, none⟩, ⟨51, [], some 77, none, none⟩] [] 10
        = some (out, cnt1) ∧
      (∀ t, (none : Option TaskId) = some t → out.gid = t) ∧
      ((none : Option TaskId) = none → out.gid = 10) ∧
      out.result.gid = out.gid ∧
      out.result = out.submittedPayload.result ∧
      out.result.childIds.length
        = [(⟨50, [], none, none, none⟩ : BSig), ⟨51, [], some 77, none, none⟩].length ∧
      out.submittedPayload.tasks.length
        = [(⟨50, [], none, none, none⟩ : BSig), ⟨51, [], some 77, none, none⟩].length ∧
      (∀ (i : Nat) (t0 : BSig),
        [(⟨50, [], none, none, none⟩ : BSig), ⟨51, [], some 77, none, none⟩][i]? = some t0 →
        ∃ m tid, out.submittedPayload.tasks[i]? = some m ∧
          out.result.childIds[i]? = some tid ∧
          m.group_id = some out.gid ∧ m.task_id = some tid ∧
          (∀ t, t0.task_id = some t → tid = t) ∧
          (t0.task_id = none → 10 ≤ tid)) :=
  C6_group_apply_async_spec none
    [⟨50, [], none, none, none⟩, ⟨51, [], some 77, none, none⟩] [] 10 (by simp)

/-! ### Claim C10 -/

/-- C10: Group.apply_async (through Group.prepare) and Chord.run write options
into the caller's member signature objects in place, without cloning: every
prepared or tagged member keeps the object identity (`oid`) of the caller's
signature — a `clone` would carry a fresh `oid` — while its options now hold the
added `group_id` (and a `task_id` when it was absent, plus the chord body
reference in the Chord.run case), so after the call the caller's own signature
objects carry these options. -/
theorem C10_members_mutated_in_place :
    (∀ (optTaskId : Option TaskId) (tasks : List BSig) (args : List Nat)
        (cnt : Nat) (p : GroupPrepared) (cnt1 : Nat),
        Group.prepare optTaskId tasks args cnt = some (p, cnt1) →
        ∀ (i : Nat) (t0 : BSig), tasks[i]? = some t0 →
          ∃ m, p.tasks[i]? = some m ∧ m.oid = t0.oid ∧
            m.group_id = some p.gid ∧
            (∀ t, t0.task_id = some t → m.task_id = some t) ∧
            (t0.task_id = none → ∃ tid, m.task_id = some tid)) ∧
    (∀ (header : List BSig) (body : BSig) (extraArgs : List Nat) (interval : Nat)
        (mr : Option Nat) (pr eager : Bool) (cnt : Nat) (out : ChordRunOut) (cnt1 : Nat),
        Chord.run header body extraArgs interval mr pr eager cnt = some (out, cnt1) →
        ∀ (i : Nat) (t0 : BSig), header[i]? = some t0 →
          ∃ m, out.members[i]? = some m ∧ m.oid = t0.oid ∧
            m.group_id = some out.gid ∧ m.chordRef = some body.oid ∧
            (∀ t, t0.task_id = some t → m.task_id = some t) ∧
            (t0.task_id = none → ∃ tid, m.task_id = some tid)) := by
  constructor
  · intro optTaskId tasks args cnt p cnt1 hprep i t0 hi
    obtain ⟨_, _, htasks, _, _, _, _⟩ := Group.prepare_eq_some hprep
    obtain ⟨m, tid, h1, _, h3, _, _, h6, h7, h8, h9⟩ :=
      prepareMembers_get p.gid tasks (cnt + 1) i t0 hi
    refine ⟨m, by rw [htasks]; exact h1, h3, h6, ?_, ?_⟩
    · intro t ht
      rw [h7, h8 t ht]
    · intro h0
      exact ⟨tid, h7⟩
  · intro header body extraArgs interval mr pr eager cnt out cnt1 hrun i t0 hi
    have hmem : out.members = (Chord.tagMembers body.oid cnt header (cnt + 1)).1 ∧
        out.gid = cnt := by
      simp only [Chord.run] at hrun
      split at hrun
      · split at hrun
        · exact Option.noConfusion hrun
        · rename_i p c2 heq
          simp only [Option.some.injEq, Prod.mk.injEq] at hrun
          rw [← hrun.1]
          exact ⟨rfl, rfl⟩
      · split at hrun
        · exact Option.noConfusion hrun
        · rename_i g c2 heq
          simp only [Option.some.injEq, Prod.mk.injEq] at hrun
          rw [← hrun.1]
          exact ⟨rfl, rfl⟩
    obtain ⟨m, tid, h1, _, h3, _, h5, h6, h7, h8, h9⟩ :=
      tagMembers_get body.oid cnt header (cnt + 1) i t0 hi
    refine ⟨m, by rw [hmem.1]; exact h1, h3, by rw [hmem.2]; exact h5, h6, ?_, ?_⟩
    · intro t ht
      rw [h7, h8 t ht]
    · intro h0
      exact ⟨tid, h7⟩

/-- Witness for C10 at a concrete group preparation and a concrete chord run,
each with one id-less member whose object identity is 50. -/
theorem C10_members_mutated_in_place_witness :
    (∃ (m : BSig) (p : GroupPrepared) (cnt1 : Nat),
      Group.prepare (some 10) [⟨50, [], none, none, none⟩] [] 10 = some (p, cnt1) ∧
      p.tasks[0]? = some m ∧ m.oid = 50 ∧ m.group_id = some p.gid) ∧
    (∃ (m : BSig) (out : ChordRunOut) (cnt1 : Nat),
      Chord.run [⟨50, [], none, none, none⟩] ⟨60, [], none, none, none⟩ [] 1 none
          false false 10 = some (out, cnt1) ∧
      out.members[0]? = some m ∧ m.oid = 50 ∧
      m.group_id = some out.gid ∧ m.chordRef = some 60) := by
  constructor
  · obtain ⟨m, h1, h2, h3, _, _⟩ :=
      (C10_members_mutated_in_place).1 (some 10) [⟨50, [], none, none, none⟩] [] 10 _ _
        rfl 0 ⟨50, [], none, none, none⟩ rfl
    exact ⟨m, _, _, rfl, h1, h2, h3⟩
  · obtain ⟨m, h1, h2, h3, h4, _, _⟩ :=
      (C10_members_mutated_in_place).2 [⟨50, [], none, none, none⟩]
        ⟨60, [], none, none, none⟩ [] 1 none false false 10 _ _ rfl 0
        ⟨50, [], none, none, none⟩ rfl
    exact ⟨m, _, _, rfl, h1, h2, h3, h4⟩

/-! ### Claim C8 -/

/-- C8: Chord.apply_async writes the caller-level group-id and chord overrides
onto the body, assigns the body's task id when absent (from the explicit
task_id argument when given, else a fresh uuid), submits the chord orchestration
task itself with the (already overridden) body in its payload, and returns the
body's result handle: its id is the callback id and its parent is the chord
task's own handle. -/
theorem C8_chord_apply_async_spec (header : List BSig) (body : BSig)
    (og : Option TaskId) (oc : Option Nat) (ot : Option TaskId) (cnt : Nat) :
    ∀ out : ChordAsyncOut, (Chord.apply_async header body og oc ot cnt).1 = out →
      out.result.rid = out.callback_id ∧
      out.result.parent = some out.chordTask ∧
      out.payloadHeader = header ∧
      out.payloadBody = out.body1 ∧
      out.body1.oid = body.oid ∧
      (∀ g, og = some g → out.body1.group_id = some g) ∧
      (og = none → out.body1.group_id = body.group_id) ∧
      (∀ c, oc = some c → out.body1.chordRef = some c) ∧
      (oc = none → out.body1.chordRef = body.chordRef) ∧
      out.body1.task_id = some out.callback_id ∧
      (∀ t, body.task_id = some t → out.callback_id = t) ∧
      (body.task_id = none → ∀ t, ot = some t → out.callback_id = t) ∧
      (body.task_id = none → ot = none → out.callback_id = cnt) := by
  intro out hout
  subst hout
  rcases og with _ | g <;> rcases oc with _ | c <;> rcases ot with _ | t <;>
    rcases hb : body.task_id with _ | bt <;>
    simp [Chord.apply_async, BSig.withGroupId, BSig.withTaskId, BSig.withChordRef,
      ARes.rid, ARes.parent, hb]

/-- Witness for C8 with both overrides present, no explicit task id, and an
id-less body. -/
theorem C8_chord_apply_async_spec_witness :
    (Chord.apply_async [] ⟨1, [], none, none, none⟩ (some 3) (some 4) none 5).1.result.rid
      = (Chord.apply_async [] ⟨1, [], none, none, none⟩ (some 3) (some 4) none 5).1.callback_id ∧
    (Chord.apply_async [] ⟨1, [], none, none, none⟩ (some 3) (some 4) none 5).1.result.parent
      = some (Chord.apply_async [] ⟨1, [], none, none, none⟩ (some 3) (some 4) none 5).1.chordTask ∧
    (Chord.apply_async [] ⟨1, [], none, none, none⟩ (some 3) (some 4) none 5).1.payloadHeader
      = [] ∧
    (Chord.apply_async [] ⟨1, [], none, none, none⟩ (some 3) (some 4) none 5).1.payloadBody
      = (Chord.apply_async [] ⟨1, [], none, none, none⟩ (some 3) (some 4) none 5).1.body1 ∧
    (Chord.apply_async [] ⟨1, [], none, none, none⟩ (some 3) (some 4) none 5).1.body1.oid
      = (⟨1, [], none, none, none⟩ : BSig).oid ∧
    (∀ g, (some 3 : Option TaskId) = some g →
      (Chord.apply_async [] ⟨1, [], none, none, none⟩ (some 3) (some 4) none 5).1.body1.group_id
        = some g) ∧
    ((some 3 : Option TaskId) = none →
      (Chord.apply_async [] ⟨1, [], none, none, none⟩ (some 3) (some 4) none 5).1.body1.group_id
        = (⟨1, [], none, none, none⟩ : BSig).group_id) ∧
    (∀ c, (some 4 : Option Nat) = some c →
      (Chord.apply_async [] ⟨1, [], none, none, none⟩ (some 3) (some 4) none 5).1.body1.chordRef
        = some c) ∧
    ((some 4 : Option Nat) = none →
      (Chord.apply_async [] ⟨1, [], none, none, none⟩ (some 3) (some 4) none 5).1.body1.chordRef
        = (⟨1, [], none, none, none⟩ : BSig).chordRef) ∧
    (Chord.apply_async [] ⟨1, [], none, none, none⟩ (some 3) (some 4) none 5).1.body1.task_id
      = some (Chord.apply_async [] ⟨1, [], none, none, none⟩ (some 3) (some 4) none 5).1.callback_id ∧
    (∀ t, (⟨1, [], none, none, none⟩ : BSig).task_id = some t →
      (Chord.apply_async [] ⟨1, [], none, none, none⟩ (some 3) (some 4) none 5).1.callback_id = t) ∧
    ((⟨1, [], none, none, none⟩ : BSig).task_id = none → ∀ t, (none : Option TaskId) = some t →
      (Chord.apply_async [] ⟨1, [], none, none, none⟩ (some 3) (some 4) none 5).1.callback_id = t) ∧
    ((⟨1, [], none, none, none⟩ : BSig).task_id = none → (none : Option TaskId) = none →
      (Chord.apply_async [] ⟨1, [], none, none, none⟩ (some 3) (some 4) none 5).1.callback_id = 5) :=
  C8_chord_apply_async_spec [] ⟨1, [], none, none, none⟩ (some 3) (some 4) none 5 _ rfl

/-! ### Claim C9 -/

/-- C9: Chord.run draws a fresh group id (the next uuid); every header member is
tagged in place with that group id and the body reference, reusing its task id
when present and drawing a fresh one otherwise, and the expected result ids
follow the members in order; with eager=true the run registers no completion
detector (on_chord_apply is not called) and does not submit the header to the
queue, executing it synchronously instead; with eager=false the backend's
on_chord_apply receives exactly the group id, body, interval, max_retries,
propagate flag and the expected result ids, and the header is submitted.  In
both modes the returned header group handle carries the group id and the
expected ids. -/
theorem C9_chord_run_spec (header : List BSig) (body : BSig) (extraArgs : List Nat)
    (interval : Nat) (mr : Option Nat) (pr eager : Bool) (cnt : Nat)
    (out : ChordRunOut) (cnt1 : Nat)
    (hrun : Chord.run header body extraArgs interval mr pr eager cnt = some (out, cnt1)) :
    out.gid = cnt ∧
    out.members = (Chord.tagMembers body.oid cnt header (cnt + 1)).1 ∧
    out.expected = (Chord.tagMembers body.oid cnt header (cnt + 1)).2.1 ∧
    (∀ (i : Nat) (t0 : BSig), header[i]? = some t0 →
      ∃ m tid, out.members[i]? = some m ∧ out.expected[i]? = some tid ∧
        m.oid = t0.oid ∧ m.task_id = some tid ∧ m.group_id = some out.gid ∧
        m.chordRef = some body.oid ∧
        (∀ t, t0.task_id = some t → tid = t) ∧
        (t0.task_id = none → cnt < tid)) ∧
    (eager = true → out.registered = none ∧ out.headerSubmitted = false) ∧
    (eager = false → out.registered = some ⟨cnt, body, interval, mr, pr, out.expected⟩ ∧
        out.headerSubmitted = true) ∧
    out.headerResult = some ⟨cnt, out.expected⟩ := by
  have hmembers : ∀ (i : Nat) (t0 : BSig), header[i]? = some t0 →
      ∃ (m : BSig) (tid : TaskId),
        (Chord.tagMembers body.oid cnt header (cnt + 1)).1[i]? = some m ∧
        (Chord.tagMembers body.oid cnt header (cnt + 1)).2.1[i]? = some tid ∧
        m.oid = t0.oid ∧ m.task_id = some tid ∧ m.group_id = some cnt ∧
        m.chordRef = some body.oid ∧
        (∀ t, t0.task_id = some t → tid = t) ∧
        (t0.task_id = none → cnt < tid) := by
    intro i t0 hi
    obtain ⟨m, tid, h1, h2, h3, h4, h5, h6, h7, h8, h9⟩ :=
      tagMembers_get body.oid cnt header (cnt + 1) i t0 hi
    exact ⟨m, tid, h1, h2, h3, h7, h5, h6, h8, fun h0 => h9 h0⟩
  simp only [Chord.run] at hrun
  split at hrun
  · rename_i he
    split at hrun
    · exact Option.noConfusion hrun
    · rename_i p c2 heq
      simp only [Option.some.injEq, Prod.mk.injEq] at hrun
      obtain ⟨ho, hc⟩ := hrun
      subst ho
      obtain ⟨hgS, _, _, hres, _, _, _⟩ := Group.prepare_eq_some heq
      have hgid : p.gid = cnt := hgS cnt rfl
      rw [hgid] at hres
      have hids := (prepareMembers_on_tagged cnt body.oid cnt header (cnt + 1)
        ((Chord.tagMembers body.oid cnt header (cnt + 1)).2.2 + 1)).1
      refine ⟨rfl, rfl, rfl, hmembers, fun _ => ⟨rfl, rfl⟩, ?_, ?_⟩
      · intro hf
        rw [hf] at he
        exact Bool.noConfusion he
      · show some p.result = _
        rw [hres, hids]
  · rename_i he
    split at hrun
    · exact Option.noConfusion hrun
    · rename_i g c2 heq
      simp only [Option.some.injEq, Prod.mk.injEq] at hrun
      obtain ⟨ho, hc⟩ := hrun
      subst ho
      obtain ⟨p, hp, hg⟩ := Group.apply_async_eq_some heq
      obtain ⟨hgS, _, _, hres, _, _, _⟩ := Group.prepare_eq_some hp
      have hgid : p.gid = cnt := hgS cnt rfl
      rw [hgid] at hres
      have hids := (prepareMembers_on_tagged cnt body.oid cnt header (cnt + 1)
        ((Chord.tagMembers body.oid cnt header (cnt + 1)).2.2 + 1)).1
      refine ⟨rfl, rfl, rfl, hmembers, ?_, fun _ => ⟨rfl, rfl⟩, ?_⟩
      · intro hf
        rw [hf] at he
        exact absurd rfl he
      · show some g.result = _
        rw [hg]
        show some p.result = _
        rw [hres, hids]

/-- Witness for C9 at a concrete non-eager chord run with one id-less header
member. -/
theorem C9_chord_run_spec_witness :
    ∃ (out : ChordRunOut) (cnt1 : Nat),
      Chord.run [⟨50, [], none, none, none⟩] ⟨60, [], none, none, none⟩ [] 1 (some 2)
          false false 10 = some (out, cnt1) ∧
      out.gid = 10 ∧
      (false = false → out.registered
          = some ⟨10, ⟨60, [], none, none, none⟩, 1, some 2, false, out.expected⟩ ∧
        out.headerSubmitted = true) ∧
      out.headerResult = some ⟨10, out.expected⟩ := by
  have h := C9_chord_run_spec [⟨50, [], none, none, none⟩] ⟨60, [], none, none, none⟩ []
      1 (some 2) false false 10 _ _ rfl
  exact ⟨_, _, rfl, h.1, h.2.2.2.2.2.1, h.2.2.2.2.2.2⟩

/-! ### Lemmas about chains -/

theorem updateLast_length (f : CStep → CStep) :
    ∀ l : List CStep, (updateLast f l).length = l.length := by
  intro l
  induction l with
  | nil => rfl
  | cons x xs ih =>
    cases xs with
    | nil => rfl
    | cons y ys => simpa [updateLast] using ih

theorem updateLast_dropLast (f : CStep → CStep) :
    ∀ l : List CStep, (updateLast f l).dropLast = l.dropLast := by
  intro l
  induction l with
  | nil => rfl
  | cons x xs ih =>
    cases xs with
    | nil => rfl
    | cons y ys =>
      show (x :: updateLast f (y :: ys)).dropLast = (x :: y :: ys).dropLast
      cases hys : updateLast f (y :: ys) with
      | nil =>
        exact absurd (updateLast_length f (y :: ys) ▸ congrArg List.length hys) (by simp)
      | cons z zs =>
        rw [List.dropLast_cons₂, ← hys, ih, List.dropLast_cons₂]

theorem updateLast_getLast? (f : CStep → CStep) :
    ∀ l : List CStep, (updateLast f l).getLast? = l.getLast?.map f := by
  intro l
  induction l with
  | nil => rfl
  | cons x xs ih =>
    cases xs with
    | nil => rfl
    | cons y ys =>
      show (x :: updateLast f (y :: ys)).getLast? = _
      cases hys : updateLast f (y :: ys) with
      | nil =>
        exact absurd (updateLast_length f (y :: ys) ▸ congrArg List.length hys) (by simp)
      | cons z zs =>
        rw [List.getLast?_cons_cons, ← hys, ih, List.getLast?_cons_cons]

theorem pushStep_lengths (t2 : CStep) (tid : TaskId) (tasks : List CStep)
    (results : List ARes) :
    (Chain.pushStep t2 tid tasks results).1.length = tasks.length + 1 ∧
    (Chain.pushStep t2 tid tasks results).2.length = results.length + 1 := by
  unfold Chain.pushStep
  cases results.getLast? <;> simp [updateLast_length]

theorem prepLoop_length_mono (args : List Nat) :
    ∀ (n : Nat) (steps : List CStep), steps.length ≤ n →
      ∀ (first : Bool) (nx : Option CStep) (cnt : Nat) (tasks : List CStep)
        (results : List ARes),
        tasks.length + (match steps with | [] => 0 | _ => 1)
          ≤ (Chain.prepLoop args steps first nx cnt tasks results).1.length ∧
        results.length + (match steps with | [] => 0 | _ => 1)
          ≤ (Chain.prepLoop args steps first nx cnt tasks results).2.1.length := by
  intro n
  induction n with
  | zero =>
    intro steps hle first nx cnt tasks results
    have : steps = [] := List.eq_nil_of_length_eq_zero (Nat.le_zero.mp hle)
    subst this
    simp [Chain.prepLoop]
  | succ k ih =>
    intro steps hle first nx cnt tasks results
    cases steps with
    | nil => simp [Chain.prepLoop]
    | cons t rest =>
      simp only [Chain.prepLoop]
      split
      case isTrue =>
          split
          case isTrue =>
            cases rest with
            | nil =>
              constructor
              · show tasks.length + 1 ≤ (Chain.pushStep _ _ tasks results).1.length
                rw [(pushStep_lengths _ _ tasks results).1]
              · show results.length + 1 ≤ (Chain.pushStep _ _ tasks results).2.length
                rw [(pushStep_lengths _ _ tasks results).2]
            | cons n2 r =>
              have hr : r.length ≤ k := by
                simp only [List.length_cons] at hle
                omega
              refine ⟨le_trans ?_ (le_trans (Nat.le_add_right _ _)
                        (ih r hr false (some n2) _ _ _).1),
                      le_trans ?_ (le_trans (Nat.le_add_right _ _)
                        (ih r hr false (some n2) _ _ _).2)⟩
              · rw [(pushStep_lengths _ _ tasks results).1]
              · rw [(pushStep_lengths _ _ tasks results).2]
          case isFalse =>
            have hr : rest.length ≤ k := by
              simp only [List.length_cons] at hle
              omega
            refine ⟨le_trans ?_ (le_trans (Nat.le_add_right _ _)
                      (ih rest hr false nx _ _ _).1),
                    le_trans ?_ (le_trans (Nat.le_add_right _ _)
                      (ih rest hr false nx _ _ _).2)⟩
            · rw [(pushStep_lengths _ _ tasks results).1]
            · rw [(pushStep_lengths _ _ tasks results).2]
      case isFalse =>
          split
          case isTrue =>
            cases rest with
            | nil =>
              constructor
              · show tasks.length + 1 ≤ (Chain.pushStep _ _ tasks results).1.length
                rw [(pushStep_lengths _ _ tasks results).1]
              · show results.length + 1 ≤ (Chain.pushStep _ _ tasks results).2.length
                rw [(pushStep_lengths _ _ tasks results).2]
            | cons n2 r =>
              have hr : r.length ≤ k := by
                simp only [List.length_cons] at hle
                omega
              refine ⟨le_trans ?_ (le_trans (Nat.le_add_right _ _)
                        (ih r hr false (some n2) _ _ _).1),
                      le_trans ?_ (le_trans (Nat.le_add_right _ _)
                        (ih r hr false (some n2) _ _ _).2)⟩
              · rw [(pushStep_lengths _ _ tasks results).1]
              · rw [(pushStep_lengths _ _ tasks results).2]
          case isFalse =>
            have hr : rest.length ≤ k := by
              simp only [List.length_cons] at hle
              omega
            refine ⟨le_trans ?_ (le_trans (Nat.le_add_right _ _)
                      (ih rest hr false nx _ _ _).1),
                    le_trans ?_ (le_trans (Nat.le_add_right _ _)
                      (ih rest hr false nx _ _ _).2)⟩
            · rw [(pushStep_lengths _ _ tasks results).1]
            · rw [(pushStep_lengths _ _ tasks results).2]

theorem prepare_steps_ne (args : List Nat) (t : CStep) (rest : List CStep) (cnt : Nat) :
    (Chain.prepare_steps args (t :: rest) cnt).1 ≠ [] ∧
    (Chain.prepare_steps args (t :: rest) cnt).2.1 ≠ [] := by
  have hlen := prepLoop_length_mono args (t :: rest).length (t :: rest) (Nat.le_refl _)
    true none cnt [] []
  constructor
  · intro hc
    have h1 := hlen.1
    rw [show Chain.prepLoop args (t :: rest) true none cnt [] []
          = Chain.prepare_steps args (t :: rest) cnt from rfl, hc] at h1
    simp at h1
  · intro hc
    have h2 := hlen.2
    rw [show Chain.prepLoop args (t :: rest) true none cnt [] []
          = Chain.prepare_steps args (t :: rest) cnt from rfl, hc] at h2
    simp at h2

/-! ### Claim C3 -/

/-- C3 (evaluation at the failing input): `prepare_steps` does upgrade the
two-step chain [group(a,b), c] into the single chord(group(a,b), body=c), and a
trailing group stays a plain group — but on [group(a,b), c, d] the loop's
`next_step` variable, never reset after the group upgrade, makes the non-group
step d come out as chord(d, body=c) with the same c (already consumed as the
first chord's body) as its body, contradicting the claim's assertion that a
step is chord-composed only when it is a Group with a successor. -/
theorem C3_prepare_steps_eval :
    ((Chain.prepare_steps [] [sigG, sigC] 0).1.map CStep.isChord = [true]) ∧
    ((Chain.prepare_steps [] [sigC, sigG] 0).1.map
        (fun s => (s.isGroup, s.isChord)) = [(false, false), (true, false)]) ∧
    ((Chain.prepare_steps [] [sigG, sigC, sigD] 0).1.map CStep.isChord = [true, true]) ∧
    ((Chain.prepare_steps [] [sigG, sigC, sigD] 0).1[1]?
       = some (CStep.chrd (CStep.single (.headPlus 4) [] (some 1) none none [])
                sigC [] (some 1) none none [])) :=
  ⟨rfl, rfl, rfl, rfl⟩

/-! ### Claim C4 -/

/-- C4 (evaluation at the failing input): eager `Chain.apply` never reads its
initial-args parameter, so a one-step chain over `headPlus 1` with initial args
[5] returns value 1 (the signature applied to no caller args), while the
sequential manual application S1([5]) yields 6.  The remaining mechanism does
match the claim: each later step receives the previous value as its sole
argument and the result's parent links chain up. -/
theorem C4_chain_apply_eval :
    Chain.apply [5] [sigA] = some (ERes.leaf 1) ∧
    manualChain [5] [sigA] = some 6 ∧
    (Chain.apply [5] [sigA]).map ERes.value ≠ manualChain [5] [sigA] ∧
    Chain.apply [] [sigC, sigD] = some (ERes.node 7 (ERes.leaf 3)) ∧
    manualChain [] [sigC, sigD] = some 7 :=
  ⟨rfl, rfl, by decide, rfl, rfl⟩

theorem withGroupId_fields (g : TaskId) (s : CStep) :
    (s.withGroupId g).group_id = some g ∧ (s.withGroupId g).task_id = s.task_id ∧
    (s.withGroupId g).chordRef = s.chordRef ∧ (s.withGroupId g).links = s.links := by
  cases s <;>
    simp [CStep.withGroupId, CStep.group_id, CStep.task_id, CStep.chordRef, CStep.links]

theorem withChordRef_fields (c : TaskId) (s : CStep) :
    (s.withChordRef c).chordRef = some c ∧ (s.withChordRef c).task_id = s.task_id ∧
    (s.withChordRef c).group_id = s.group_id ∧ (s.withChordRef c).links = s.links := by
  cases s <;>
    simp [CStep.withChordRef, CStep.group_id, CStep.task_id, CStep.chordRef, CStep.links]

theorem withTaskId_fields (v : TaskId) (s : CStep) :
    (s.withTaskId v).task_id = some v ∧ (s.withTaskId v).group_id = s.group_id ∧
    (s.withTaskId v).chordRef = s.chordRef ∧ (s.withTaskId v).links = s.links := by
  cases s <;>
    simp [CStep.withTaskId, CStep.group_id, CStep.task_id, CStep.chordRef, CStep.links]

theorem condUpdateLast_length (f : TaskId → CStep → CStep) (o : Option TaskId)
    (l : List CStep) : (condUpdateLast f o l).length = l.length := by
  cases o <;> simp [condUpdateLast, updateLast_length]

theorem condUpdateLast_dropLast (f : TaskId → CStep → CStep) (o : Option TaskId)
    (l : List CStep) : (condUpdateLast f o l).dropLast = l.dropLast := by
  cases o <;> simp [condUpdateLast, updateLast_dropLast]

theorem condUpdateLast_getLast? (f : TaskId → CStep → CStep) (o : Option TaskId)
    (l : List CStep) :
    (condUpdateLast f o l).getLast? = l.getLast?.map (condApply f o) := by
  cases o with
  | none =>
    simp only [condUpdateLast, condApply]
    cases l.getLast? <;> rfl
  | some v =>
    simp only [condUpdateLast, updateLast_getLast?]
    rfl

/-! ### Claim C7 -/

/-- C7: non-eager Chain.apply_async prepares the steps, writes the caller-level
group_id, chord-body-reference and task_id overrides onto the last prepared
step only — all steps but the last are exactly the prepared ones — submits only
the first step of the final task list, and returns the last step's result
handle, rebuilt with the overriding task id when one was supplied and the
prepared last handle otherwise. -/
theorem C7_chain_apply_async_spec (args : List Nat) (t : CStep) (rest : List CStep)
    (og oc ot : Option TaskId) (cnt : Nat) :
    ∃ out cnt1, Chain.apply_async args (t :: rest) og oc ot cnt = some (out, cnt1) ∧
      out.results = (Chain.prepare_steps args (t :: rest) cnt).2.1 ∧
      cnt1 = (Chain.prepare_steps args (t :: rest) cnt).2.2 ∧
      out.tasks.dropLast = (Chain.prepare_steps args (t :: rest) cnt).1.dropLast ∧
      out.tasks.length = (Chain.prepare_steps args (t :: rest) cnt).1.length ∧
      (∀ lastPre, (Chain.prepare_steps args (t :: rest) cnt).1.getLast? = some lastPre →
        ∃ lastOut, out.tasks.getLast? = some lastOut ∧
          (∀ g, og = some g → lastOut.group_id = some g) ∧
          (og = none → lastOut.group_id = lastPre.group_id) ∧
          (∀ c, oc = some c → lastOut.chordRef = some c) ∧
          (oc = none → lastOut.chordRef = lastPre.chordRef) ∧
          (∀ t2, ot = some t2 → lastOut.task_id = some t2) ∧
          (ot = none → lastOut.task_id = lastPre.task_id) ∧
          lastOut.links = lastPre.links) ∧
      out.tasks.head? = some out.submitted ∧
      (∀ t2, ot = some t2 → out.result = ARes.leaf t2) ∧
      (ot = none → (Chain.prepare_steps args (t :: rest) cnt).2.1.getLast? = some out.result) := by
  obtain ⟨hts, hrs⟩ := prepare_steps_ne args t rest cnt
  simp only [Chain.apply_async]
  split
  case h_1 h0 => exact absurd h0 (by simp [hrs])
  case h_2 lastRes h0 =>
    split
    case h_1 h1 =>
      exfalso
      apply hts
      have hlen := congrArg List.length (List.head?_eq_none_iff.mp h1)
      simp only [condUpdateLast_length, List.length_nil] at hlen
      exact List.eq_nil_of_length_eq_zero hlen
    case h_2 f0 h1 =>
      refine ⟨_, _, rfl, rfl, rfl, ?_, ?_, ?_, h1, ?_, ?_⟩
      · simp [condUpdateLast_dropLast]
      · simp [condUpdateLast_length]
      · intro lastPre hlp
        refine ⟨condApply CStep.withTaskId ot
          (condApply CStep.withChordRef oc (condApply CStep.withGroupId og lastPre)),
          ?_, ?_, ?_, ?_, ?_, ?_, ?_, ?_⟩
        · simp [condUpdateLast_getLast?, hlp]
        · intro g hg
          subst hg
          cases oc <;> cases ot <;>
            simp [condApply, withGroupId_fields, withChordRef_fields, withTaskId_fields]
        · intro hg
          subst hg
          cases oc <;> cases ot <;>
            simp [condApply, withGroupId_fields, withChordRef_fields, withTaskId_fields]
        · intro c hc
          subst hc
          cases og <;> cases ot <;>
            simp [condApply, withGroupId_fields, withChordRef_fields, withTaskId_fields]
        · intro hc
          subst hc
          cases og <;> cases ot <;>
            simp [condApply, withGroupId_fields, withChordRef_fields, withTaskId_fields]
        · intro t2 htid
          subst htid
          cases og <;> cases oc <;>
            simp [condApply, withGroupId_fields, withChordRef_fields, withTaskId_fields]
        · intro htid
          subst htid
          cases og <;> cases oc <;>
            simp [condApply, withGroupId_fields, withChordRef_fields, withTaskId_fields]
        · cases og <;> cases oc <;> cases ot <;>
            simp [condApply, withGroupId_fields, withChordRef_fields, withTaskId_fields]
      · intro t2 htid
        subst htid
        rfl
      · intro htid
        subst htid
        exact h0

/-- Witness for C7 at a concrete two-step chain with a group-id override and an
explicit task-id override. -/
theorem C7_chain_apply_async_spec_witness :
    ∃ out cnt1, Chain.apply_async [] [sigC, sigD] (some 30) none (some 40) 0
        = some (out, cnt1) ∧
      out.tasks.head? = some out.submitted ∧
      out.result = ARes.leaf 40 ∧
      ∃ lastOut, out.tasks.getLast? = some lastOut ∧
        lastOut.group_id = some 30 ∧ lastOut.task_id = some 40 := by
  obtain ⟨out, cnt1, heq, hA, hB, hC, hD, hE, hF, hG, hH⟩ :=
    C7_chain_apply_async_spec [] sigC [sigD] (some 30) none (some 40) 0
  obtain ⟨lastOut, hlo, hgS, _, _, _, htS, _, _⟩ := hE _ rfl
  exact ⟨out, cnt1, heq, hF, hG 40 rfl, lastOut, hlo, hgS 30 rfl, htS 40 rfl⟩

end CeleryB
